import Mathlib

/-!
Verification of the isolated document indexing and retrieval pipeline of
`app/rag_system.py` (class `RAGSystem`).

The Python code is shallowly embedded: pure helpers become Lean functions,
and the external collaborators (OpenAI embedding calls, the Pinecone index,
the md5 fingerprint from `hashlib`, the GPT generation backend and the
wall-clock timestamp) are passed in as explicit function parameters.
Calls that may raise are modeled as `Option`/`Except` values; the
`try/except` blocks of the source become `match`es on those values.
Python `str` is modeled as `String`; non-negative Python ints as `Nat`;
the float similarity scores as integers scaled by 100 (the code's literals
`0.35` and `0.5` become `35` and `50`), since only their order is used.
-/

/-! ### Python string primitives used by `rag_system.py` -/

/-- Python `s.lower()` (ASCII case folding, as in `Char.toLower`). -/
def pyLower (s : String) : String := ⟨s.data.map Char.toLower⟩

/-- Helper for Python's substring test: does `pat` occur inside the list? -/
def hasInfix : List Char → List Char → Bool
  | [], pat => pat.isEmpty
  | c :: rest, pat => pat.isPrefixOf (c :: rest) || hasInfix rest pat

/-- Python `pat in s` (substring containment). -/
def pyIn (pat s : String) : Bool := hasInfix s.data pat.data

/-- Python `s.replace(old, new)` on char lists: replace every
non-overlapping occurrence, scanning left to right.  (For the empty
pattern Python splices `new` between characters; the pipeline only ever
replaces non-empty synonym terms, and this model keeps the string
unchanged in that unused case.) -/
def replaceAll (pat rep : List Char) : List Char → List Char
  | [] => []
  | c :: rest =>
    if pat.isPrefixOf (c :: rest) ∧ pat ≠ [] then
      rep ++ replaceAll pat rep (rest.drop (pat.length - 1))
    else
      c :: replaceAll pat rep rest
termination_by l => l.length
decreasing_by
  · simp only [List.length_drop, List.length_cons]; omega
  · simp only [List.length_cons]; omega

/-- Python `s.replace(old, new)`. -/
def pyReplace (s old new : String) : String := ⟨replaceAll old.data new.data s.data⟩

/-- Python `list(dict.fromkeys(l))`: drop duplicates, keeping the first
occurrence of each element; `seen` accumulates the keys already kept. -/
def dedupFirstAux (seen : List String) : List String → List String
  | [] => []
  | x :: xs =>
    if seen.contains x then dedupFirstAux seen xs
    else x :: dedupFirstAux (x :: seen) xs

/-- Python `list(dict.fromkeys(l))`. -/
def dedupFirst (l : List String) : List String := dedupFirstAux [] l

/-! ### Decimal rendering of non-negative integers

Python renders the ids with `f"user_{sindico_id}_cond_{condo_id}"`; the
decimal rendering of a `Nat` is modeled by `natStr`, written with explicit
fuel so that it computes by kernel reduction. -/

/-- The decimal digit character for `d < 10` (and a harmless placeholder
outside that range, which is never reached). -/
def digitChar (d : Nat) : Char :=
  if d = 0 then '0' else if d = 1 then '1' else if d = 2 then '2'
  else if d = 3 then '3' else if d = 4 then '4' else if d = 5 then '5'
  else if d = 6 then '6' else if d = 7 then '7' else if d = 8 then '8'
  else if d = 9 then '9' else '*'

/-- Big-endian decimal digits of `n`; `fuel > n` suffices. -/
def decChars : Nat → Nat → List Char
  | 0, _ => []
  | fuel + 1, n =>
    if n < 10 then [digitChar n] else decChars fuel (n / 10) ++ [digitChar (n % 10)]

/-- Python `str(n)` for a non-negative int `n`. -/
def natStr (n : Nat) : String := ⟨decChars (n + 1) n⟩

/-- Reads a big-endian decimal digit string back into a number. -/
def ofChars (l : List Char) : Nat := l.foldl (fun a c => a * 10 + (c.toNat - 48)) 0

theorem digitChar_toNat (d : Nat) (h : d < 10) : (digitChar d).toNat = 48 + d := by
  unfold digitChar
  repeat' split
  all_goals first
    | (rename_i hh; subst hh; decide)
    | (exfalso; omega)

theorem digitChar_ne_underscore (d : Nat) : digitChar d ≠ '_' := by
  unfold digitChar
  repeat' split
  all_goals decide

theorem ofChars_decChars : ∀ fuel n, n < fuel → ofChars (decChars fuel n) = n := by
  intro fuel
  induction fuel with
  | zero => intro n h; omega
  | succ f ih =>
    intro n h
    by_cases h10 : n < 10
    · simp only [decChars, if_pos h10, ofChars, List.foldl_cons, List.foldl_nil]
      rw [digitChar_toNat n h10]
      omega
    · have hpos : 0 < n := by omega
      have hdiv : n / 10 < n := Nat.div_lt_self hpos (by omega)
      have hrec : n / 10 < f := by omega
      simp only [decChars, if_neg h10, ofChars, List.foldl_append, List.foldl_cons,
        List.foldl_nil]
      have := ih (n / 10) hrec
      simp only [ofChars] at this
      rw [this, digitChar_toNat (n % 10) (by omega)]
      omega

theorem decChars_ne_underscore : ∀ fuel n, ∀ c ∈ decChars fuel n, c ≠ '_' := by
  intro fuel
  induction fuel with
  | zero => intro n c hc; simp [decChars] at hc
  | succ f ih =>
    intro n c hc
    by_cases h10 : n < 10
    · simp only [decChars, if_pos h10, List.mem_singleton] at hc
      subst hc; exact digitChar_ne_underscore n
    · simp only [decChars, if_neg h10, List.mem_append, List.mem_singleton] at hc
      rcases hc with hc | hc
      · exact ih (n / 10) c hc
      · subst hc; exact digitChar_ne_underscore (n % 10)

theorem natStr_inj {a b : Nat} (h : natStr a = natStr b) : a = b := by
  have hd : decChars (a + 1) a = decChars (b + 1) b := congrArg String.data h
  have h2 := congrArg ofChars hd
  rwa [ofChars_decChars (a + 1) a (by omega), ofChars_decChars (b + 1) b (by omega)] at h2

theorem natStr_ne_underscore (n : Nat) : ∀ c ∈ (natStr n).data, c ≠ '_' :=
  fun c hc => decChars_ne_underscore (n + 1) n c hc

/-- Splitting a character list at the first `'_'`: if neither prefix
contains an underscore, the decomposition is unique. -/
theorem split_at_underscore : ∀ (a b u v : List Char),
    (∀ c ∈ a, c ≠ '_') → (∀ c ∈ b, c ≠ '_') →
    a ++ '_' :: u = b ++ '_' :: v → a = b ∧ u = v := by
  intro a
  induction a with
  | nil =>
    intro b u v _ hb h
    cases b with
    | nil => simpa using h
    | cons y ys =>
      simp only [List.nil_append, List.cons_append, List.cons.injEq] at h
      exact absurd h.1.symm (hb y (by simp))
  | cons x xs ih =>
    intro b u v ha hb h
    cases b with
    | nil =>
      simp only [List.nil_append, List.cons_append, List.cons.injEq] at h
      exact absurd h.1 (ha x (by simp))
    | cons y ys =>
      simp only [List.cons_append, List.cons.injEq] at h
      obtain ⟨hxy, hrest⟩ := h
      obtain ⟨h1, h2⟩ := ih ys u v (fun c hc => ha c (by simp [hc]))
        (fun c hc => hb c (by simp [hc])) hrest
      exact ⟨by rw [hxy, h1], h2⟩

/-! ### `RAGSystem.namespace_for` -/

/-- `RAGSystem.namespace_for`: Python
`return f"user_{sindico_id}_cond_{condo_id}"`. -/
def namespace_for (sindico_id condo_id : Nat) : String :=
  "user_" ++ natStr sindico_id ++ "_cond_" ++ natStr condo_id

theorem string_data_append (a b : String) : (a ++ b).data = a.data ++ b.data := rfl

theorem namespace_for_data (a b : Nat) :
    (namespace_for a b).data =
      "user_".data ++ ((natStr a).data ++ ('_' :: ("cond_".data ++ (natStr b).data))) := by
  simp only [namespace_for, string_data_append, List.append_assoc]
  rfl

theorem mk_data (s : String) : (⟨s.data⟩ : String) = s := rfl

/-- Sanity check of the embedding against the Python f-string. -/
theorem namespace_for_eval : namespace_for 3 5 = "user_3_cond_5" := by decide

/-- Claim C2: `namespace_for` is total and deterministic (it is a Lean
function, so both are inherent), and collision-free: two distinct
`(sindico_id, condo_id)` pairs of non-negative integers never map to the
same namespace string. -/
theorem namespace_for_collision_free (a b a2 b2 : Nat)
    (h : namespace_for a b = namespace_for a2 b2) : a = a2 ∧ b = b2 := by
  have hd := congrArg String.data h
  rw [namespace_for_data, namespace_for_data] at hd
  have hd2 := List.append_cancel_left hd
  have hsplit := split_at_underscore (natStr a).data (natStr a2).data
    ("cond_".data ++ (natStr b).data) ("cond_".data ++ (natStr b2).data)
    (natStr_ne_underscore a) (natStr_ne_underscore a2) hd2
  obtain ⟨h1, h2⟩ := hsplit
  have hb := List.append_cancel_left h2
  constructor
  · exact natStr_inj (by rw [← mk_data (natStr a), ← mk_data (natStr a2)]; exact congrArg String.mk h1)
  · exact natStr_inj (by rw [← mk_data (natStr b), ← mk_data (natStr b2)]; exact congrArg String.mk hb)

/-- Witness for C2: the theorem applied at the concrete pair `(3, 5)`. -/
theorem namespace_for_collision_free_witness : 3 = 3 ∧ 5 = 5 :=
  namespace_for_collision_free 3 5 3 5 (by decide)

/-! ### `RAGSystem._create_chunks` (sliding-window chunker)

Python:
```
start = 0
while start < len(text):
    end = start + chunk_size
    chunk = text[start:end].strip()
    if chunk:
        chunks.append(chunk)
    start = end - overlap if end < len(text) else end
```
The while loop is embedded with explicit fuel; `none` means the fuel ran
out before the loop finished, so `isSome` of the result is exactly
termination of the loop within that budget.  `text.data.length + 1` fuel
is enough whenever `overlap < chunk_size` (claim C6). -/

/-- Python `s.strip()`: remove leading and trailing whitespace. -/
def pstrip (l : List Char) : List Char :=
  ((l.dropWhile Char.isWhitespace).reverse.dropWhile Char.isWhitespace).reverse

/-- One fuel tick per iteration of the `while start < len(text)` loop. -/
def chunksLoop (chunkSize overlap : Nat) (text : List Char) :
    Nat → Nat → Option (List (List Char))
  | 0, _ => none
  | fuel + 1, start =>
    if start < text.length then
      let chunk := pstrip ((text.drop start).take chunkSize)
      let start2 :=
        if start + chunkSize < text.length then start + chunkSize - overlap
        else start + chunkSize
      match chunksLoop chunkSize overlap text fuel start2 with
      | none => none
      | some rest => some (if chunk.isEmpty then rest else chunk :: rest)
    else some []

/-- `RAGSystem._create_chunks(text, chunk_size, overlap)` (defaults in the
source: `chunk_size=600`, `overlap=75`). -/
def create_chunks (text : String) (chunkSize overlap : Nat) : Option (List String) :=
  (chunksLoop chunkSize overlap text.data (text.data.length + 1) 0).map
    (fun l => l.map String.mk)

/-- Ceiling-division step: for `0 < n`, one loop iteration accounts for one
unit of `⌈n / d⌉`. -/
theorem ceil_div_step (n d : Nat) (hd : 0 < d) (hn : 0 < n) :
    (n - d + d - 1) / d + 1 ≤ (n + d - 1) / d := by
  by_cases hnd : n ≤ d
  · have h1 : n - d = 0 := by omega
    have h2 : (n - d + d - 1) / d = 0 := by
      rw [h1]; exact Nat.div_eq_of_lt (by omega)
    have h3 : 1 ≤ (n + d - 1) / d := (Nat.le_div_iff_mul_le hd).mpr (by omega)
    omega
  · have h1 : n - d + d - 1 + d = n + d - 1 := by omega
    have h2 : (n - d + d - 1 + d) / d = (n - d + d - 1) / d + 1 :=
      Nat.add_div_right _ hd
    rw [h1] at h2
    omega

theorem chunksLoop_sound (chunkSize overlap : Nat) (text : List Char)
    (hov : overlap < chunkSize) :
    ∀ fuel start,
      (text.length - start + (chunkSize - overlap) - 1) / (chunkSize - overlap) < fuel →
      (chunksLoop chunkSize overlap text fuel start).isSome = true ∧
        ((chunksLoop chunkSize overlap text fuel start).getD []).length ≤
          (text.length - start + (chunkSize - overlap) - 1) / (chunkSize - overlap) := by
  intro fuel
  set d := chunkSize - overlap with hd
  have hdpos : 0 < d := by omega
  induction fuel with
  | zero => intro start h; exact absurd h (Nat.not_lt_zero _)
  | succ f ih =>
    intro start h
    by_cases hs : start < text.length
    · have hn : 0 < text.length - start := by omega
      set start2 :=
        if start + chunkSize < text.length then start + chunkSize - overlap
        else start + chunkSize with hs2
      have hstep : text.length - start2 ≤ text.length - start - d := by
        rw [hs2]; split <;> omega
      have hmono : (text.length - start2 + d - 1) / d ≤
          (text.length - start - d + d - 1) / d :=
        Nat.div_le_div_right (by omega)
      have hceil := ceil_div_step (text.length - start) d hdpos hn
      have hrec : (text.length - start2 + d - 1) / d < f := by omega
      obtain ⟨hsome, hlen⟩ := ih start2 hrec
      simp only [chunksLoop, if_pos hs]
      cases hcl : chunksLoop chunkSize overlap text f start2 with
      | none => rw [hcl] at hsome; simp at hsome
      | some rest =>
        rw [hcl] at hlen
        simp only [Option.getD_some] at hlen
        constructor
        · simp
        · simp only [Option.getD_some]
          split
          · omega
          · simp only [List.length_cons]; omega
    · simp only [chunksLoop, if_neg hs]
      exact ⟨rfl, by simp⟩

/-- Claim C6: for non-empty text and `overlap < chunk_size`, the
sliding-window chunker terminates (the fuel-modeled loop finishes within
its budget) and produces at most `⌈len(text) / (chunk_size - overlap)⌉`
chunks (written `(len + d - 1) / d` over naturals). -/
theorem create_chunks_terminates_and_bounded (text : String) (chunkSize overlap : Nat)
    (hov : overlap < chunkSize) (_hne : text.data ≠ []) :
    (create_chunks text chunkSize overlap).isSome = true ∧
      ((create_chunks text chunkSize overlap).getD []).length ≤
        (text.data.length + (chunkSize - overlap) - 1) / (chunkSize - overlap) := by
  set d := chunkSize - overlap with hd
  have hdpos : 0 < d := by omega
  have hfuel : (text.data.length - 0 + d - 1) / d < text.data.length + 1 := by
    simp only [Nat.sub_zero]
    have h2 : text.data.length + d - 1 ≤ d * text.data.length + (d - 1) := by
      have := Nat.le_mul_of_pos_left text.data.length hdpos
      omega
    have h3 := Nat.div_le_div_right (c := d) h2
    have h4 := Nat.mul_add_div hdpos text.data.length (d - 1)
    have h5 : (d - 1) / d = 0 := Nat.div_eq_of_lt (by omega)
    omega
  obtain ⟨hsome, hlen⟩ := chunksLoop_sound chunkSize overlap text.data hov
    (text.data.length + 1) 0 hfuel
  simp only [create_chunks]
  cases hcl : chunksLoop chunkSize overlap text.data (text.data.length + 1) 0 with
  | none => rw [hcl] at hsome; simp at hsome
  | some l =>
    rw [hcl] at hlen
    simp only [Option.getD_some] at hlen
    simp only [Option.map_some', Option.isSome_some, Option.getD_some, List.length_map]
    exact ⟨trivial, by simpa using hlen⟩

/-- Witness for C6: the chunker on `"abcdef"` with `chunk_size = 3`,
`overlap = 1` terminates with at most `⌈6 / 2⌉ = 3` chunks. -/
theorem create_chunks_terminates_and_bounded_witness :
    (create_chunks "abcdef" 3 1).isSome = true ∧
      ((create_chunks "abcdef" 3 1).getD []).length ≤ 3 := by
  have h := create_chunks_terminates_and_bounded "abcdef" 3 1 (by decide) (by decide)
  simpa using h

/-! ### `RAGSystem._expand_query` -/

/-- The `synonyms` dict of `_expand_query`, in Python's (insertion)
iteration order. -/
def synonyms : List (String × List String) :=
  [("animal", ["pet", "bicho", "cachorro", "gato"]),
   ("barulho", ["ruído", "som", "silêncio"]),
   ("festa", ["evento", "comemoração", "reunião"]),
   ("multa", ["penalidade", "sanção", "punição"])]

/-- The synonym loop of `_expand_query`:
`for term, syns in synonyms.items(): if term in query.lower(): for syn in
syns[:2]: queries.append(query.lower().replace(term, syn))`. -/
def applySynonyms (query : String) : List (String × List String) → List String → List String
  | [], qs => qs
  | (term, syns) :: rest, qs =>
    applySynonyms query rest
      (if pyIn term (pyLower query) then
        qs ++ (syns.take 2).map (fun syn => pyReplace (pyLower query) term syn)
      else qs)

/-- `RAGSystem._expand_query(query, classification)`.  The Python code
only reads `classification['type']`, which is passed here as `ctype`. -/
def expand_query (query ctype : String) : List String :=
  let queries := [query]
  let queries :=
    if ctype = "lookup" then
      (if pyIn "artigo" (pyLower query) = false then queries ++ ["artigo sobre " ++ query]
       else queries) ++ ["regulamento " ++ query]
    else if ctype = "interpretative" then
      queries ++ ["regras sobre " ++ query, "normas de " ++ query]
    else queries
  let queries := applySynonyms query synonyms queries
  (dedupFirst queries).take 5

theorem applySynonyms_head (query x : String) :
    ∀ (l : List (String × List String)) (qs : List String),
      ∃ t, applySynonyms query l (x :: qs) = x :: t := by
  intro l
  induction l with
  | nil => intro qs; exact ⟨qs, rfl⟩
  | cons p rest ih =>
    intro qs
    obtain ⟨term, syns⟩ := p
    simp only [applySynonyms]
    split
    · rw [List.cons_append]; exact ih _
    · exact ih qs

theorem dedupFirstAux_not_seen :
    ∀ (l seen : List String) (x : String),
      x ∈ dedupFirstAux seen l → seen.contains x = false := by
  intro l
  induction l with
  | nil => intro seen x hx; simp [dedupFirstAux] at hx
  | cons y ys ih =>
    intro seen x hx
    simp only [dedupFirstAux] at hx
    split at hx
    · exact ih seen x hx
    · rcases List.mem_cons.mp hx with h | h
      · subst h
        rename_i hns
        simpa using hns
      · have := ih (y :: seen) x h
        simp only [List.contains_cons, Bool.or_eq_false_iff] at this
        exact this.2

theorem dedupFirstAux_mem : ∀ (l seen : List String) (x : String),
    x ∈ dedupFirstAux seen l → x ∈ l := by
  intro l
  induction l with
  | nil => intro seen x hx; simp [dedupFirstAux] at hx
  | cons y ys ih =>
    intro seen x hx
    simp only [dedupFirstAux] at hx
    split at hx
    · exact List.mem_cons_of_mem y (ih seen x hx)
    · rcases List.mem_cons.mp hx with h | h
      · subst h; exact List.mem_cons_self x ys
      · exact List.mem_cons_of_mem y (ih (y :: seen) x h)

theorem dedupFirstAux_nodup : ∀ (l seen : List String), (dedupFirstAux seen l).Nodup := by
  intro l
  induction l with
  | nil => intro seen; simp [dedupFirstAux]
  | cons y ys ih =>
    intro seen
    simp only [dedupFirstAux]
    split
    · exact ih seen
    · refine List.nodup_cons.mpr ⟨?_, ih (y :: seen)⟩
      intro hy
      have := dedupFirstAux_not_seen ys (y :: seen) y hy
      simp [List.contains_cons] at this

theorem dedupFirst_nodup (l : List String) : (dedupFirst l).Nodup :=
  dedupFirstAux_nodup l []

theorem dedupFirst_cons (x : String) (l : List String) :
    ∃ t, dedupFirst (x :: l) = x :: t := by
  simp only [dedupFirst, dedupFirstAux, List.contains_nil]
  exact ⟨_, rfl⟩

/-- Claim C7: for every question `q` and classification type `c`,
`_expand_query(q, c)` returns at most 5 pairwise-distinct query strings
and its first element is exactly `q`. -/
theorem expand_query_bounded_distinct_anchored (q c : String) :
    (expand_query q c).length ≤ 5 ∧ (expand_query q c).head? = some q ∧
      (expand_query q c).Nodup := by
  have hshape : ∃ t, expand_query q c = (dedupFirst (q :: t)).take 5 := by
    simp only [expand_query, List.cons_append, List.nil_append]
    split
    · split
      · obtain ⟨t, ht⟩ := applySynonyms_head q q synonyms
          ["artigo sobre " ++ q, "regulamento " ++ q]
        simp only [List.cons_append, List.nil_append]
        rw [ht]; exact ⟨t, rfl⟩
      · obtain ⟨t, ht⟩ := applySynonyms_head q q synonyms ["regulamento " ++ q]
        simp only [List.cons_append, List.nil_append]
        rw [ht]; exact ⟨t, rfl⟩
    · split
      · obtain ⟨t, ht⟩ :=
          applySynonyms_head q q synonyms ["regras sobre " ++ q, "normas de " ++ q]
        rw [ht]; exact ⟨t, rfl⟩
      · obtain ⟨t, ht⟩ := applySynonyms_head q q synonyms []
        rw [ht]; exact ⟨t, rfl⟩
  obtain ⟨t, ht⟩ := hshape
  obtain ⟨t2, ht2⟩ := dedupFirst_cons q t
  rw [ht, ht2]
  refine ⟨List.length_take_le 5 _, rfl, ?_⟩
  exact List.Nodup.sublist (List.take_sublist 5 _) (ht2 ▸ dedupFirst_nodup (q :: t))

/-- Sanity check of the expander embedding on a lookup-type query. -/
theorem expand_query_eval :
    expand_query "pergunta" "lookup" =
      ["pergunta", "artigo sobre pergunta", "regulamento pergunta"] := by decide

/-! ### `RAGSystem.upsert_texts`

External collaborators (md5, `index.fetch`, the embeddings API, the clock)
are explicit parameters (`UpsertDeps`); the `index.upsert` call is
recorded in a trace.  A raised Python exception is `none`/`.error`. -/

/-- One entry of `metadata_list`; the code reads only `filename`/`title`
(via `md.get('filename', md.get('title', 'doc'))`). -/
structure ChunkMeta where
  filename : Option String
  title : Option String
deriving DecidableEq

/-- External collaborators of `upsert_texts`. -/
structure UpsertDeps where
  /-- `hashlib.md5(text.encode()).hexdigest()[:8]` (an opaque fingerprint
  function; the claims hold for any choice). -/
  md5_8 : String → String
  /-- `self.index.fetch(ids=[check_id], namespace=ns)`: `some b` means the
  call returned with `.vectors` non-empty iff `b`; `none` models a raised
  exception (the bare-except path). -/
  fetchVectors : String → String → Option Bool
  /-- one `embeddings.create` call; `.error e` models an exception with
  `str(e) = e`. -/
  embed1 : String → Except String (List Int)
  /-- `datetime.now().timestamp()`, used only inside the generated
  `base_doc_id`. -/
  nowTs : Nat

/-- Python `metadata_list[i]` guarded by
`if metadata_list and i < len(metadata_list)`. -/
def metaAt (mds : Option (List ChunkMeta)) (i : Nat) : Option ChunkMeta :=
  match mds with
  | some l => l.get? i
  | none => none

/-- `md.get('filename', md.get('title', 'doc'))` with `"doc"` when there is
no metadata entry. -/
def fileNameOf (m : Option ChunkMeta) : String :=
  match m with
  | some md => md.filename.getD (md.title.getD "doc")
  | none => "doc"

/-- `check_id = f"{filename}_{content_hash}_0"` — note the constant `_0`
suffix used by the duplicate probe of `upsert_texts`. -/
def checkIdFor (deps : UpsertDeps) (mds : Option (List ChunkMeta)) (i : Nat)
    (text : String) : String :=
  fileNameOf (metaAt mds i) ++ "_" ++ deps.md5_8 text ++ "_0"

/-- The duplicate-check loop of `upsert_texts`: keeps a chunk when the
probe reports it absent (`some false`) or raises (`none`); skips it when
the probe finds it (`some true`).  Returns `(unique_texts,
unique_metadatas)`. -/
def upsertDedup (deps : UpsertDeps) (ns : String) (mds : Option (List ChunkMeta)) :
    Nat → List String → List String × List ChunkMeta
  | _, [] => ([], [])
  | i, t :: ts =>
    let rest := upsertDedup deps ns mds (i + 1) ts
    let keep :=
      match deps.fetchVectors (checkIdFor deps mds i t) ns with
      | some true => false
      | _ => true
    if keep then
      (t :: rest.1,
        match metaAt mds i with
        | some m => m :: rest.2
        | none => rest.2)
    else rest

/-- `RAGSystem._embed(texts)`: sequential per-text embedding calls; the
first exception aborts the loop and propagates.  Returns the texts for
which a call was issued, paired with the outcome. -/
def embedSeq (deps : UpsertDeps) : List String → List String × Except String (List (List Int))
  | [] => ([], .ok [])
  | t :: ts =>
    match deps.embed1 t with
    | .error e => ([t], .error e)
    | .ok v =>
      let rest := embedSeq deps ts
      (t :: rest.1,
        match rest.2 with
        | .error e => .error e
        | .ok vs => .ok (v :: vs))

/-- `vector_id = f"{filename}_{content_hash}_{i}"` over the unique texts,
where `i` indexes the *unique* list (not the original chunk list). -/
def vectorIds (deps : UpsertDeps) (ums : List ChunkMeta) :
    Nat → List String → List String
  | _, [] => []
  | i, t :: ts =>
    (fileNameOf (ums.get? i) ++ "_" ++ deps.md5_8 t ++ "_" ++ natStr i) ::
      vectorIds deps ums (i + 1) ts

/-- The result dict of `upsert_texts` (fields absent from a given Python
return dict are `none`/`0`). -/
structure UpsertResult where
  success : Bool
  error : Option String := none
  message : Option String := none
  chunks_created : Nat := 0
  embeddings_created : Nat := 0
  doc_id : Option String := none
deriving DecidableEq

/-- Calls issued to the external backends during `upsert_texts`. -/
structure UpsertTrace where
  embedCalls : List String := []
  upsertedIds : List String := []
deriving DecidableEq

/-- `RAGSystem.upsert_texts(texts, namespace, metadata_list, base_doc_id)`.
The surrounding `try/except` is the `match` on the embedding outcome: in
this model the only remaining raising call inside the `try` is `_embed`
(the probe's exceptions are swallowed by the inner bare excepts, and the
final `index.upsert` is recorded in the trace). -/
def upsert_texts (deps : UpsertDeps) (texts : List String) (ns : String)
    (metadata_list : Option (List ChunkMeta)) (base_doc_id : Option String) :
    UpsertResult × UpsertTrace :=
  if texts.isEmpty then
    ({ success := false, error := some "Sem textos para indexar" }, {})
  else
    let dd := upsertDedup deps ns metadata_list 0 texts
    if dd.1.isEmpty then
      ({ success := true, message := some "Documentos já existem" }, {})
    else
      let es := embedSeq deps dd.1
      match es.2 with
      | .error e => ({ success := false, error := some e }, { embedCalls := es.1 })
      | .ok embeddings =>
        let docId := base_doc_id.getD
          ("doc_" ++ deps.md5_8 (dd.1.headD "") ++ "_" ++ natStr deps.nowTs)
        ({ success := true, chunks_created := dd.1.length,
           embeddings_created := embeddings.length, doc_id := some docId },
         { embedCalls := es.1, upsertedIds := vectorIds deps dd.2 0 dd.1 })

theorem embedSeq_all_ok (deps : UpsertDeps)
    (hembed : ∀ t, ∃ v, deps.embed1 t = .ok v) :
    ∀ l : List String, (embedSeq deps l).1 = l ∧ ∃ vs, (embedSeq deps l).2 = .ok vs := by
  intro l
  induction l with
  | nil => exact ⟨rfl, [], rfl⟩
  | cons t ts ih =>
    obtain ⟨v, hv⟩ := hembed t
    obtain ⟨h1, vs, h2⟩ := ih
    refine ⟨?_, v :: vs, ?_⟩
    · simp only [embedSeq, hv, h1]
    · simp only [embedSeq, hv, h2]

theorem upsertDedup_keeps_probe_errors (deps : UpsertDeps) (ns : String)
    (mds : Option (List ChunkMeta)) :
    ∀ (l : List String) (i0 i : Nat) (t : String),
      l.get? i = some t →
      deps.fetchVectors (checkIdFor deps mds (i0 + i) t) ns = none →
      t ∈ (upsertDedup deps ns mds i0 l).1 := by
  intro l
  induction l with
  | nil => intro i0 i t hget; simp at hget
  | cons x xs ih =>
    intro i0 i t hget hfetch
    cases i with
    | zero =>
      simp only [List.get?] at hget
      injection hget with hxt
      subst hxt
      simp only [upsertDedup]
      rw [Nat.add_zero] at hfetch
      rw [hfetch]
      simp
    | succ j =>
      simp only [List.get?] at hget
      have hfetch2 : deps.fetchVectors (checkIdFor deps mds ((i0 + 1) + j) t) ns = none := by
        have : i0 + (j + 1) = (i0 + 1) + j := by omega
        rwa [this] at hfetch
      have hmem := ih (i0 + 1) j t hget hfetch2
      simp only [upsertDedup]
      split
      · exact List.mem_cons_of_mem x hmem
      · exact hmem

/-- Claim C5: duplicate-probe failures are fail-open.  If every embedding
call succeeds, then for any probe behavior (including raising on every
chunk) the ingestion succeeds, and every chunk whose probe raised is kept
and sent to the embedding backend. -/
theorem upsert_probe_failure_fail_open (deps : UpsertDeps) (texts : List String)
    (ns : String) (mds : Option (List ChunkMeta)) (bdid : Option String)
    (hne : texts ≠ [])
    (hembed : ∀ t, ∃ v, deps.embed1 t = .ok v) :
    (upsert_texts deps texts ns mds bdid).1.success = true ∧
      ∀ i t, texts.get? i = some t →
        deps.fetchVectors (checkIdFor deps mds i t) ns = none →
        t ∈ (upsert_texts deps texts ns mds bdid).2.embedCalls := by
  obtain ⟨t0, ts, rfl⟩ := List.exists_cons_of_ne_nil hne
  simp only [upsert_texts, List.isEmpty_cons, Bool.false_eq_true, if_false]
  have hkeep := fun i t hget hfetch => by
    have := upsertDedup_keeps_probe_errors deps ns mds (t0 :: ts) 0 i t hget
      (by rwa [Nat.zero_add])
    exact this
  by_cases hdd : (upsertDedup deps ns mds 0 (t0 :: ts)).1.isEmpty
  · rw [if_pos hdd]
    refine ⟨rfl, ?_⟩
    intro i t hget hfetch
    exfalso
    have hmem := hkeep i t hget hfetch
    rw [List.isEmpty_iff] at hdd
    rw [hdd] at hmem
    simp at hmem
  · rw [if_neg hdd]
    obtain ⟨hcalls, vs, hok⟩ := embedSeq_all_ok deps hembed
      (upsertDedup deps ns mds 0 (t0 :: ts)).1
    rw [hok]
    exact ⟨rfl, fun i t hget hfetch => by rw [hcalls]; exact hkeep i t hget hfetch⟩

/-- A vector store with nothing in it and reliable backends, used to
instantiate the theorems at concrete inputs. -/
def depsEmptyStore : UpsertDeps :=
  { md5_8 := fun s => s, fetchVectors := fun _ _ => some false,
    embed1 := fun _ => .ok [1], nowTs := 0 }

/-- Backends whose duplicate probe always raises. -/
def depsProbeErr : UpsertDeps :=
  { depsEmptyStore with fetchVectors := fun _ _ => none }

/-- Witness for C5: with an always-raising probe, ingesting `["x"]`
succeeds and `"x"` is embedded. -/
theorem upsert_probe_failure_fail_open_witness :
    (upsert_texts depsProbeErr ["x"] "user_1_cond_1" none none).1.success = true ∧
      "x" ∈ (upsert_texts depsProbeErr ["x"] "user_1_cond_1" none none).2.embedCalls := by
  have h := upsert_probe_failure_fail_open depsProbeErr ["x"] "user_1_cond_1" none none
    (by decide) (fun t => ⟨[1], rfl⟩)
  exact ⟨h.1, h.2 0 "x" rfl rfl⟩

/-- Claim C4, amended to what the code does: on an empty chunk list
`upsert_texts` reports *failure* — `success = False` with the error
message "Sem textos para indexar" and zero chunks created — for every
choice of backends, namespace, metadata and base document id. -/
theorem upsert_texts_empty_input (deps : UpsertDeps) (ns : String)
    (mds : Option (List ChunkMeta)) (bdid : Option String) :
    upsert_texts deps [] ns mds bdid =
      ({ success := false, error := some "Sem textos para indexar" }, {}) := rfl

/-- Counterexample to C4 as stated: at the concrete empty ingestion the
result has `success = false` and carries an error, while the claim asserts
`success = true` with no error. -/
theorem upsert_texts_empty_input_counterexample :
    (upsert_texts depsEmptyStore [] "user_1_cond_1" none none).1.success = false ∧
      (upsert_texts depsEmptyStore [] "user_1_cond_1" none none).1.error =
        some "Sem textos para indexar" := by decide

/-- The vector store as a second `upsert_texts` run sees it: the probe
answers membership in exactly the ids the first run of
`["aa", "bb"]` upserted. -/
def depsAfterFirstRun : UpsertDeps :=
  { depsEmptyStore with
    fetchVectors := fun checkId _ =>
      some (((upsert_texts depsEmptyStore ["aa", "bb"] "user_1_cond_1"
        none none).2.upsertedIds).contains checkId) }

/-- Claim C3 fails on `upsert_texts` (code bug): the duplicate probe asks
for the constant id suffix `_0` (`check_id = f"{filename}_{content_hash}_0"`)
while stored ids carry the chunk index, so after a first ingestion of the
two-chunk document `["aa", "bb"]` (stored as `doc_aa_0`, `doc_bb_1`, with
`md5_8` instantiated as the identity fingerprint) a second identical run
misses the probe for `"bb"` — it asks for `doc_bb_0` — re-embeds it and
reports `chunks_created = 1` instead of the documented `0`.  The sibling
loop in `process_pdf_content` probes `f"{doc_id}_{content_hash}_{i}"`,
matching its stored ids, which shows the `_0` here is a slip. -/
theorem upsert_texts_rerun_reembeds :
    (upsert_texts depsEmptyStore ["aa", "bb"] "user_1_cond_1" none none).2.upsertedIds =
      ["doc_aa_0", "doc_bb_1"] ∧
    (upsert_texts depsAfterFirstRun ["aa", "bb"] "user_1_cond_1"
        none none).1.chunks_created = 1 ∧
    (upsert_texts depsAfterFirstRun ["aa", "bb"] "user_1_cond_1"
        none none).2.embedCalls = ["bb"] := by decide

/-! ### `RAGSystem.query`

The Pinecone index is a map from namespace strings to that namespace's
stored records (`store : String → List VecRecord`); `index.query` is the
dependency `pineq`, which sees only the records of the namespace being
queried — this is the vector-store contract of the spec (operations are
partitioned by namespace string).  Similarity scores are scaled by 100
(`0.35` → `35`, `0.5` → `50`).  The query classifier `_classify_query` is
carried as a dependency `classify : String → String` producing
`classification['type']`; every theorem below holds for every classifier,
and the classifier's own contract is exercised through `expand_query`
(claim C7), which quantifies over the classification. -/

/-- The metadata fields of a stored vector that `query` reads:
`md.get('full_text', md.get('text', ''))` and
`md.get('filename', md.get('title', 'Documento'))`. -/
structure MatchMeta where
  full_text : Option String
  text : Option String
  filename : Option String
  title : Option String
deriving DecidableEq

/-- One Pinecone match: id, similarity score (scaled by 100), metadata. -/
structure PMatch where
  id : String
  score : Int
  metadata : MatchMeta
deriving DecidableEq

/-- One stored vector record of a namespace. -/
structure VecRecord where
  id : String
  values : List Int
  metadata : MatchMeta
deriving DecidableEq

/-- External collaborators of `RAGSystem.query`. -/
structure QueryDeps where
  /-- `self._classify_query(query)['type']` (abstract; see section note). -/
  classify : String → String
  /-- one `embeddings.create` call; `.error e` models an exception. -/
  embed1 : String → Except String (List Int)
  /-- `self.index.query(vector, top_k, namespace, include_metadata=True)`:
  ranked matches computed from the queried namespace's records only. -/
  pineq : List VecRecord → List Int → Nat → List PMatch
  /-- `chat.completions.create(...)` returning the answer text;
  `.error e` models an exception (API failure, empty `choices`, ...). -/
  genAnswer : String → String → Except String String
  /-- the iteration order of the CPython `set` in `list(sources)`:
  CPython only guarantees it enumerates the distinct elements, in no
  specified order (string hashing is randomized per process). -/
  setToList : List String → List String

/-- The result dict of `query` (fields absent from a given Python return
dict are `none`). -/
structure QueryResult where
  success : Bool
  answer : String
  sources : List String
  confidence : Int
  chunks_used : Option Nat := none
  query_type : Option String := none
deriving DecidableEq

/-- `for match in results.matches: if match.id not in seen_ids: ...` —
the seen-id set is exactly the ids of the accumulated matches. -/
def mergeMatches (acc : List PMatch) : List PMatch → List PMatch
  | [] => acc
  | m :: ms =>
    if (acc.map (fun x => x.id)).contains m.id then mergeMatches acc ms
    else mergeMatches (acc ++ [m]) ms

/-- The retrieval loop of `query`: for each expanded query, embed it
(`_embed([q])[0]`, whose exception propagates to the outer handler) and
merge the namespace search results by id. -/
def gatherMatches (deps : QueryDeps) (nsData : List VecRecord) (k : Nat) :
    List String → List PMatch → Except String (List PMatch)
  | [], acc => .ok acc
  | q :: qs, acc =>
    match deps.embed1 q with
    | .error e => .error e
    | .ok emb => gatherMatches deps nsData k qs (mergeMatches acc (deps.pineq nsData emb k))

/-- Stable insertion for descending in-place sort: an incoming earlier
element passes elements with strictly greater score and stops at the first
element with score `≤` its own, as Python's stable
`sort(key=..., reverse=True)` does. -/
def insertDesc (m : PMatch) : List PMatch → List PMatch
  | [] => [m]
  | x :: xs => if x.score ≤ m.score then m :: x :: xs else x :: insertDesc m xs

/-- `filtered_matches.sort(key=lambda x: x.score, reverse=True)`. -/
def sortByScoreDesc : List PMatch → List PMatch
  | [] => []
  | x :: xs => insertDesc x (sortByScoreDesc xs)

/-- `md.get("filename", md.get("title", "Documento"))`. -/
def titleOf (md : MatchMeta) : String := md.filename.getD (md.title.getD "Documento")

/-- The context-assembly loop over the top matches: collects
`(context_chunks, source titles in encounter order)`; a match with empty
chunk text contributes neither. -/
def collectContext : List PMatch → List String × List String
  | [] => ([], [])
  | m :: ms =>
    let rest := collectContext ms
    let chunkText := m.metadata.full_text.getD (m.metadata.text.getD "")
    if chunkText = "" then rest
    else (chunkText :: rest.1, titleOf m.metadata :: rest.2)

/-- The classification-selected system prompt (whitespace of the Python
triple-quoted literals is flattened to newlines; only the choice of
variant matters to the claims). -/
def basePrompt (ctype : String) : String :=
  if ctype = "lookup" then
    "Você é a Dra. Alexandra, especialista em direito condominial.\nCite EXATAMENTE os artigos e textos relevantes dos documentos.\nSeja precisa e objetiva."
  else if ctype = "interpretative" then
    "Você é a Dra. Alexandra, especialista em direito condominial.\nInterprete as regras de forma clara e prática.\nExplique o que é permitido ou proibido com base nos documentos."
  else
    "Você é a Dra. Alexandra, especialista em direito condominial.\nResponda de forma profissional baseando-se nos documentos fornecidos."

/-- The `IMPORTANTE:` block appended to every system prompt. -/
def importantSuffix : String :=
  "\n\nIMPORTANTE:\n- Forneça uma resposta DETALHADA com no mínimo 300 palavras\n- Use TODAS as informações relevantes do contexto\n- Cite artigos e trechos específicos quando aplicável\n- Se houver múltiplas regras, mencione TODAS\n- Estruture a resposta de forma clara"

def systemPromptFor (ctype : String) : String := basePrompt ctype ++ importantSuffix

def userPromptFor (context q : String) : String :=
  "Baseado nos seguintes documentos do condomínio:\n\n" ++ context ++
    "\n\nPergunta: " ++ q ++
    "\n\nResponda de forma completa e detalhada, incluindo TODAS as informações relevantes."

/-- The `if not all_matches` return dict. -/
def noMatchesResult : QueryResult :=
  { success := false, answer := "Não encontrei informações relevantes nos documentos.",
    sources := [], confidence := 0 }

/-- The `if not filtered_matches` return dict. -/
def belowThresholdResult : QueryResult :=
  { success := false, answer := "Não encontrei informações suficientemente relevantes.",
    sources := [], confidence := 0 }

/-- The `except Exception as e` return dict:
`f"Erro ao processar busca: {str(e)}"`. -/
def exceptResult (e : String) : QueryResult :=
  { success := false, answer := "Erro ao processar busca: " ++ e,
    sources := [], confidence := 0 }

/-- `threshold = 0.35 if namespace == "user_0_cond_0" else 0.5`
(scores scaled by 100). -/
def ragThreshold (ns : String) : Int := if ns = "user_0_cond_0" then 35 else 50

/-- `[m for m in all_matches if getattr(m, "score", 0) > threshold]`. -/
def ragFiltered (ns : String) (allMatches : List PMatch) : List PMatch :=
  allMatches.filter (fun m => decide (ragThreshold ns < m.score))

/-- The sorted filtered matches (`filtered_matches` after the in-place
descending sort). -/
def ragSorted (ns : String) (allMatches : List PMatch) : List PMatch :=
  sortByScoreDesc (ragFiltered ns allMatches)

/-- The body of `query` after namespace resolution, as an `Except`
computation whose `.error` is an exception reaching the outer handler. -/
def ragQueryCore (deps : QueryDeps) (nsData : List VecRecord) (q ns : String)
    (k : Nat) : Except String QueryResult :=
  let ctype := deps.classify q
  match gatherMatches deps nsData k (expand_query q ctype) [] with
  | .error e => .error e
  | .ok allMatches =>
    if allMatches.isEmpty then .ok noMatchesResult
    else
      let filtered := ragFiltered ns allMatches
      if filtered.isEmpty then .ok belowThresholdResult
      else
        let sorted := sortByScoreDesc filtered
        let top := sorted.take 12
        let ctx := collectContext top
        let context := String.intercalate "\n\n---\n\n" ctx.1
        match deps.genAnswer (systemPromptFor ctype) (userPromptFor context q) with
        | .error e => .error e
        | .ok answer =>
          .ok { success := true, answer := answer,
                sources := (deps.setToList ctx.2).take 5,
                confidence := (match sorted with | m2 :: _ => m2.score | [] => 0),
                chunks_used := some ctx.1.length,
                query_type := some ctype }

/-- `if not namespace: namespace = self.namespace_for(sindico_id, condo_id)`
(`None` and `""` are falsy). -/
def ragQueryNs (nsArg : Option String) (sid cid : Nat) : String :=
  match nsArg with
  | none => namespace_for sid cid
  | some s => if s = "" then namespace_for sid cid else s

def ragQueryBody (deps : QueryDeps) (store : String → List VecRecord) (q : String)
    (sid cid : Nat) (nsArg : Option String) (k : Nat) : Except String QueryResult :=
  let ns := ragQueryNs nsArg sid cid
  ragQueryCore deps (store ns) q ns k

/-- `RAGSystem.query(query, sindico_id, condo_id, namespace, k)` (default
`k = 30`).  The surrounding `try/except` is the outer `match`; as a total
Lean function this never "raises". -/
def ragQuery (deps : QueryDeps) (store : String → List VecRecord) (q : String)
    (sid cid : Nat) (nsArg : Option String) (k : Nat) : QueryResult :=
  match ragQueryBody deps store q sid cid nsArg k with
  | .ok r => r
  | .error e => exceptResult e

/-- The deduplicated retrieval candidates of a `query` run (`all_matches`),
before thresholding. -/
def ragRetrieve (deps : QueryDeps) (store : String → List VecRecord) (q : String)
    (sid cid : Nat) (nsArg : Option String) (k : Nat) : Except String (List PMatch) :=
  let ns := ragQueryNs nsArg sid cid
  gatherMatches deps (store ns) k (expand_query q (deps.classify q)) []

/-- The top-ranked matches (`top_matches = filtered_matches[:12]`) of a
`query` run, or `[]` when retrieval raised. -/
def ragTopMatches (deps : QueryDeps) (store : String → List VecRecord) (q : String)
    (sid cid : Nat) (nsArg : Option String) (k : Nat) : List PMatch :=
  match ragRetrieve deps store q sid cid nsArg k with
  | .error _ => []
  | .ok allMatches => (ragSorted (ragQueryNs nsArg sid cid) allMatches).take 12

/-- Claim C1 (noninterference): a `query` run for tenant
`(sindico_id, condo_id)` reads the vector store only at
`namespace_for(sindico_id, condo_id)`; two stores that agree on that
namespace — and may differ arbitrarily everywhere else — yield the same
retrieval candidates and the same final result, for every choice of the
external backends. -/
theorem query_namespace_isolation (deps : QueryDeps)
    (store1 store2 : String → List VecRecord) (q : String) (sid cid k : Nat)
    (h : store1 (namespace_for sid cid) = store2 (namespace_for sid cid)) :
    ragRetrieve deps store1 q sid cid none k = ragRetrieve deps store2 q sid cid none k ∧
      ragQuery deps store1 q sid cid none k = ragQuery deps store2 q sid cid none k := by
  have hns : ragQueryNs none sid cid = namespace_for sid cid := rfl
  constructor
  · simp only [ragRetrieve, hns, h]
  · simp only [ragQuery, ragQueryBody, hns, h]

/-- A record visible to tenant `(1, 1)`. -/
def recA : VecRecord :=
  { id := "ra", values := [1],
    metadata := { full_text := some "Piscina das 6 as 18", text := none,
                  filename := some "Regras", title := none } }

/-- A record another tenant ingested. -/
def recB : VecRecord :=
  { id := "rb", values := [2],
    metadata := { full_text := some "Piscina das 8 as 22", text := none,
                  filename := some "Outras", title := none } }

def storeOne : String → List VecRecord :=
  fun ns => if ns = "user_1_cond_1" then [recA] else []

def storeTwo : String → List VecRecord :=
  fun ns => if ns = "user_1_cond_1" then [recA] else [recB]

/-- Backends whose nearest-neighbor search genuinely depends on the stored
records of the queried namespace. -/
def qdepsEcho : QueryDeps :=
  { classify := fun _ => "general", embed1 := fun _ => .ok [1],
    pineq := fun recs _ _ =>
      recs.map (fun r => { id := r.id, score := 90, metadata := r.metadata }),
    genAnswer := fun _ _ => .ok "resp", setToList := dedupFirst }

/-- Witness for C1: two stores agreeing on `user_1_cond_1` but differing
on every other namespace produce identical candidates and results. -/
theorem query_namespace_isolation_witness :
    ragRetrieve qdepsEcho storeOne "pergunta" 1 1 none 30 =
        ragRetrieve qdepsEcho storeTwo "pergunta" 1 1 none 30 ∧
      ragQuery qdepsEcho storeOne "pergunta" 1 1 none 30 =
        ragQuery qdepsEcho storeTwo "pergunta" 1 1 none 30 :=
  query_namespace_isolation qdepsEcho storeOne storeTwo "pergunta" 1 1 30 (by decide)

/-- Claim C10: every `query` result with `success = false` — the
no-matches branch, the all-below-threshold branch and the exception
branch alike — carries an empty source list and confidence `0`. -/
theorem query_failure_invariant (deps : QueryDeps) (store : String → List VecRecord)
    (q : String) (sid cid : Nat) (nsArg : Option String) (k : Nat)
    (h : (ragQuery deps store q sid cid nsArg k).success = false) :
    (ragQuery deps store q sid cid nsArg k).sources = [] ∧
      (ragQuery deps store q sid cid nsArg k).confidence = 0 := by
  unfold ragQuery at h ⊢
  cases hb : ragQueryBody deps store q sid cid nsArg k with
  | error e => exact ⟨rfl, rfl⟩
  | ok r =>
    rw [hb] at h
    replace h : r.success = false := h
    show r.sources = [] ∧ r.confidence = 0
    simp only [ragQueryBody, ragQueryCore] at hb
    repeat' split at hb
    all_goals first
      | exact Except.noConfusion hb
      | (injection hb with h2; subst h2; exact ⟨rfl, rfl⟩)
      | (injection hb with h2; subst h2; simp at h)

/-- The index of an empty deployment. -/
def emptyStore : String → List VecRecord := fun _ => []

/-- Reliable backends over a store with no matching content. -/
def qdepsNoMatches : QueryDeps :=
  { classify := fun _ => "general", embed1 := fun _ => .ok [1],
    pineq := fun _ _ _ => [], genAnswer := fun _ _ => .ok "resp",
    setToList := dedupFirst }

/-- Witness for C10: the no-matches branch at a concrete input. -/
theorem query_failure_invariant_witness :
    (ragQuery qdepsNoMatches emptyStore "pergunta" 1 1 none 30).sources = [] ∧
      (ragQuery qdepsNoMatches emptyStore "pergunta" 1 1 none 30).confidence = 0 :=
  query_failure_invariant qdepsNoMatches emptyStore "pergunta" 1 1 none 30 (by decide)

/-- Claim C9, amended to what the code does: `query` is total (the outer
`try/except` catches every exception), and a backend exception `e` during
retrieval yields the graceful fallback record — `success = false`, empty
sources, confidence `0` — whose answer text is
`"Erro ao processar busca: " ++ e`, i.e. it *does* embed the raw exception
text after the fixed prefix. -/
theorem query_embed_failure_graceful (deps : QueryDeps) (store : String → List VecRecord)
    (q : String) (sid cid : Nat) (nsArg : Option String) (k : Nat) (e : String)
    (h : deps.embed1 q = .error e) :
    ragQuery deps store q sid cid nsArg k = exceptResult e := by
  obtain ⟨-, hhead, -⟩ := expand_query_bounded_distinct_anchored q (deps.classify q)
  cases hexp : expand_query q (deps.classify q) with
  | nil => rw [hexp] at hhead; simp at hhead
  | cons a rest =>
    rw [hexp] at hhead
    simp only [List.head?_cons, Option.some.injEq] at hhead
    subst hhead
    simp only [ragQuery, ragQueryBody, ragQueryCore]
    rw [hexp]
    simp only [gatherMatches, h]

/-- Backends whose embedding call always raises with message `"boom"`. -/
def qdepsEmbedBoom : QueryDeps :=
  { qdepsNoMatches with embed1 := fun _ => .error "boom" }

/-- Witness for C9 (amended): the fallback record at a concrete failing
input. -/
theorem query_embed_failure_graceful_witness :
    ragQuery qdepsEmbedBoom emptyStore "pergunta" 1 1 none 30 = exceptResult "boom" :=
  query_embed_failure_graceful qdepsEmbedBoom emptyStore "pergunta" 1 1 none 30 "boom" rfl

/-- Counterexample to C9 as stated: when the embedding backend raises with
message `"boom"`, the fallback answer is
`"Erro ao processar busca: boom"` — it *contains* the raw backend
exception text, which the claim forbids. -/
theorem query_fallback_contains_exception_text :
    (ragQuery qdepsEmbedBoom emptyStore "pergunta" 1 1 none 30).success = false ∧
      (ragQuery qdepsEmbedBoom emptyStore "pergunta" 1 1 none 30).answer =
        "Erro ao processar busca: boom" ∧
      pyIn "boom" ((ragQuery qdepsEmbedBoom emptyStore "pergunta" 1 1 none 30).answer) =
        true := by decide

theorem dedupFirstAux_mem_of : ∀ (l seen : List String) (x : String),
    x ∈ l → seen.contains x = false → x ∈ dedupFirstAux seen l := by
  intro l
  induction l with
  | nil => intro seen x hx; simp at hx
  | cons y ys ih =>
    intro seen x hx hseen
    simp only [dedupFirstAux]
    rcases List.mem_cons.mp hx with h | h
    · subst h
      split
      · rename_i hcon; rw [hseen] at hcon; cases hcon
      · exact List.mem_cons_self x _
    · split
      · exact ih seen x h hseen
      · by_cases hxy : x = y
        · subst hxy; exact List.mem_cons_self x _
        · refine List.mem_cons_of_mem y (ih (y :: seen) x h ?_)
          simp only [List.contains_cons, Bool.or_eq_false_iff]
          refine ⟨?_, hseen⟩
          simpa using hxy

theorem dedupFirst_mem_iff (x : String) (l : List String) :
    x ∈ dedupFirst l ↔ x ∈ l :=
  ⟨fun h => dedupFirstAux_mem l [] x h, fun h => dedupFirstAux_mem_of l [] x h rfl⟩

/-- Claim C8, amended to what the code does: on a successful `query`, the
sources are at most 5 pairwise-distinct document titles of the retrieved
top-ranked chunks; their *order* is whatever order the Python `set`
enumerates (`hset` is exactly CPython's guarantee for `list(sources)`:
some duplicate-free enumeration of the elements), and is *not* the
rank order the claim asserts.  Failure results have no sources. -/
theorem query_sources_deduplicated_capped (deps : QueryDeps)
    (store : String → List VecRecord) (q : String) (sid cid : Nat)
    (nsArg : Option String) (k : Nat)
    (hset : ∀ l, (deps.setToList l).Nodup ∧ ∀ x, x ∈ deps.setToList l ↔ x ∈ l) :
    (ragQuery deps store q sid cid nsArg k).sources.Nodup ∧
      (ragQuery deps store q sid cid nsArg k).sources.length ≤ 5 ∧
      ∀ t ∈ (ragQuery deps store q sid cid nsArg k).sources,
        t ∈ (collectContext (ragTopMatches deps store q sid cid nsArg k)).2 := by
  unfold ragQuery
  cases hb : ragQueryBody deps store q sid cid nsArg k with
  | error e =>
    exact ⟨List.nodup_nil, by simp [exceptResult], fun t ht => absurd ht (by simp [exceptResult])⟩
  | ok r =>
    show r.sources.Nodup ∧ r.sources.length ≤ 5 ∧
      ∀ t ∈ r.sources, t ∈ (collectContext (ragTopMatches deps store q sid cid nsArg k)).2
    simp only [ragQueryBody] at hb
    set ns := ragQueryNs nsArg sid cid with hns
    simp only [ragQueryCore] at hb
    cases hg : gatherMatches deps (store ns) k (expand_query q (deps.classify q)) [] with
    | error e => rw [hg] at hb; exact Except.noConfusion hb
    | ok allM =>
      rw [hg] at hb
      dsimp only at hb
      by_cases hae : allM.isEmpty
      · rw [if_pos hae] at hb
        injection hb with h2; subst h2
        exact ⟨List.nodup_nil, by simp [noMatchesResult],
          fun t ht => absurd ht (by simp [noMatchesResult])⟩
      · rw [if_neg hae] at hb
        by_cases hfe : (ragFiltered ns allM).isEmpty
        · rw [if_pos hfe] at hb
          injection hb with h2; subst h2
          exact ⟨List.nodup_nil, by simp [belowThresholdResult],
            fun t ht => absurd ht (by simp [belowThresholdResult])⟩
        · rw [if_neg hfe] at hb
          repeat' split at hb
          all_goals first
            | exact Except.noConfusion hb
            | (injection hb with h2; subst h2
               refine ⟨List.Nodup.sublist (List.take_sublist 5 _) (hset _).1,
                 List.length_take_le 5 _, ?_⟩
               intro t ht
               have h1 := (List.take_sublist 5 _).subset ht
               have h2m := ((hset _).2 t).mp h1
               have h3 : ragTopMatches deps store q sid cid nsArg k =
                   (sortByScoreDesc (ragFiltered ns allM)).take 12 := by
                 simp only [ragTopMatches, ragRetrieve, ragSorted, ← hns]
                 rw [hg]
               rw [h3]
               exact h2m)

/-- Witness for C8 (amended): reliable backends whose nearest-neighbor
search returns two scored documents. -/
def mB : PMatch :=
  { id := "b1", score := 90,
    metadata := { full_text := some "Btext", text := none,
                  filename := some "B", title := none } }

def mA : PMatch :=
  { id := "a1", score := 60,
    metadata := { full_text := some "Atext", text := none,
                  filename := some "A", title := none } }

def qdepsTwoDocs : QueryDeps :=
  { classify := fun _ => "general", embed1 := fun _ => .ok [1],
    pineq := fun _ _ _ => [mB, mA], genAnswer := fun _ _ => .ok "resp",
    setToList := dedupFirst }

theorem query_sources_deduplicated_capped_witness :
    (ragQuery qdepsTwoDocs emptyStore "pergunta" 1 1 none 30).sources.Nodup ∧
      (ragQuery qdepsTwoDocs emptyStore "pergunta" 1 1 none 30).sources.length ≤ 5 :=
  have h := query_sources_deduplicated_capped qdepsTwoDocs emptyStore "pergunta" 1 1
    none 30 (fun l => ⟨dedupFirst_nodup l, fun x => dedupFirst_mem_iff x l⟩)
  ⟨h.1, h.2.1⟩

/-- The same two-document deployment, with a set-enumeration order (a
legal one: CPython leaves it unspecified and hash-randomized) that
reverses first-seen order. -/
def qdepsTwoDocsRev : QueryDeps :=
  { qdepsTwoDocs with setToList := fun l => (dedupFirst l).reverse }

/-- Counterexample to C8 as stated: the top-ranked matches put title `"B"`
(score 0.90) before `"A"` (score 0.60) — the encounter-order title list is
`["B", "A"]` — yet under this legal set-enumeration the result's sources
are `["A", "B"]`: the code's `list(set(...))` does not order sources by
the rank of each document's best-scoring chunk. -/
theorem query_sources_not_rank_ordered :
    ragTopMatches qdepsTwoDocsRev emptyStore "pergunta" 1 1 none 30 = [mB, mA] ∧
      mA.score < mB.score ∧
      (collectContext (ragTopMatches qdepsTwoDocsRev emptyStore "pergunta" 1 1
        none 30)).2 = ["B", "A"] ∧
      (ragQuery qdepsTwoDocsRev emptyStore "pergunta" 1 1 none 30).success = true ∧
      (ragQuery qdepsTwoDocsRev emptyStore "pergunta" 1 1 none 30).sources =
        ["A", "B"] := by decide
